import Mathlib

set_option maxRecDepth 1000000

/-!
Verification of the Silhouette Measurement Engine of YeadonModelGenerator
(`src/im2meas.py` and `src/utils/get_maximum.py`).

Embedding conventions, used uniformly below:

* Pixel coordinates are exact rationals; Python's `int(...)` conversion
  truncates toward zero, embedded as `itrunc`.
* An edge raster (a 2-D numpy array of pixel values) is a list of rows
  of natural-number values; `rasterAt` is the (bounds-checked by the
  callers, exactly as in the source) element access, `rrows`/`rcols`
  are `shape[0]`/`shape[1]`.
* The source drives every ray by an angle fed to `np.sin`/`np.cos`.
  The embedding represents an angle by its exact `(cos, sin)` pair of
  rationals; every derived angle of the source (`θ ± π/2`, `-θ`, ...)
  becomes the corresponding exact algebraic combination of the pair.
  Universally quantified theorems carry the hypothesis `c^2 + s^2 = 1`
  (or receive the pair positively proportional to the landmark vector)
  where the claim needs it.
* `np.linalg.norm` values are carried as their squares (`sqDist`,
  `normSqList`): every use in the source either compares two norms
  (strictly monotone in the square) or truncates a norm to `int`
  (recovered exactly by `Int.sqrt` of the square).
* The unbounded `while True:` loops of the source are embedded with an
  explicit fuel argument; `none` means "the loop is still running after
  `fuel` iterations", `some r` is the value the Python code returns.
  Python exceptions escaping an operation are `Except.error` values.
-/

/-- Python `int(q)`: truncation of a rational toward zero. -/
def itrunc (q : ℚ) : ℤ := if q < 0 then ⌈q⌉ else ⌊q⌋

/-- An edge raster: a 2-D grid of pixel values, row-major. -/
def Raster := List (List ℕ)

/-- `edges.shape[0]` (number of rows). -/
def rrows (E : Raster) : ℤ := (List.length E : ℤ)

/-- `edges.shape[1]` (number of columns). -/
def rcols (E : Raster) : ℤ := ((List.headD E []).length : ℤ)

/-- `edges[x, y]` for in-bounds indices (callers bounds-check first,
exactly as the source does). -/
def rasterAt (E : Raster) (x y : ℤ) : ℕ :=
  (List.getD E x.toNat []).getD y.toNat 0

/-- The source's bounds test `not (x < 0 or x >= shape[0] or y < 0 or y >= shape[1])`. -/
def inB (E : Raster) (x y : ℤ) : Bool :=
  decide (0 ≤ x) && decide (x < rrows E) && decide (0 ≤ y) && decide (y < rcols E)

/-- Embeds `pt_from(origin, angle, distance)`: the pixel
`[int(origin[0] + cos(angle)*distance), int(origin[1] + sin(angle)*distance)]`.
`dir` is the `(cos angle, sin angle)` pair. -/
def pt_from (origin : ℚ × ℚ) (dir : ℚ × ℚ) (distance : ℚ) : ℤ × ℤ :=
  (itrunc (origin.1 + dir.1 * distance), itrunc (origin.2 + dir.2 * distance))

/-- The body of `find_edge` (and of the identical inner loops of
`_get_maximum` / `get_maximum_range`): march from `distance`, stepping by
`0.01`, until the pixel is out of bounds (return the empty hit list) or a
boundary pixel of value 255 is reached (return the singleton `[(y, x)]`).
`none` = the loop has not finished within `fuel` iterations.
The unused second point argument of the source is dropped. -/
def find_edge_from (E : Raster) (p1 : ℚ × ℚ) (dir : ℚ × ℚ) :
    ℕ → ℚ → Option (List (ℤ × ℤ))
  | 0, _ => none
  | fuel + 1, distance =>
    let xy := pt_from p1 dir distance
    if inB E xy.1 xy.2 = false then some []
    else if rasterAt E xy.1 xy.2 = 255 then some [(xy.2, xy.1)]
    else find_edge_from E p1 dir fuel (distance + mkRat 1 100)

/-- `find_edge(p1, p2, angle_radians, edges)`: the march starting at distance 0. -/
def find_edge (E : Raster) (p1 : ℚ × ℚ) (dir : ℚ × ℚ) (fuel : ℕ) :
    Option (List (ℤ × ℤ)) :=
  find_edge_from E p1 dir fuel 0

/-- The pixel probed at the `k`-th iteration of the march (distance `k/100`).
(`mkRat k 100 = (k : ℚ) / 100`; the `mkRat` spelling keeps the definition
kernel-evaluable, since `Rat.div` is irreducible.) -/
def marchPt (p : ℚ × ℚ) (dir : ℚ × ℚ) (k : ℕ) : ℤ × ℤ :=
  pt_from p dir (mkRat k 100)

/-- Squared euclidean distance of two integer pixels
(`np.linalg.norm(a - b)` squared). -/
def sqDist (a b : ℤ × ℤ) : ℤ := (a.1 - b.1) ^ 2 + (a.2 - b.2) ^ 2

/-- Squared Frobenius norm of a hit list
(`np.linalg.norm(save)` squared: 0 for the empty list). -/
def normSqList (l : List (ℤ × ℤ)) : ℤ :=
  (l.map (fun p => p.1 ^ 2 + p.2 ^ 2)).sum

/-- Python-exception outcomes of the measurement code. -/
inductive PyErr where
  | valueError : PyErr
  | typeError : PyErr
  | indexError : PyErr
  | axisError : PyErr
deriving DecidableEq, Repr

instance {ε α : Type} [DecidableEq ε] [DecidableEq α] :
    DecidableEq (Except ε α) := fun a b =>
  match a, b with
  | .error e, .error f =>
    if h : e = f then isTrue (by rw [h])
    else isFalse (fun hc => h (by injection hc))
  | .ok x, .ok y =>
    if h : x = y then isTrue (by rw [h])
    else isFalse (fun hc => h (by injection hc))
  | .error _, .ok _ => isFalse (fun hc => Except.noConfusion hc)
  | .ok _, .error _ => isFalse (fun hc => Except.noConfusion hc)

/-- `np.linalg.norm(np.array(max1) - np.array(max2))` squared, on two hit
lists (each empty or a singleton, as produced by `find_edge`): both empty
gives norm `0.0`; two singletons give their distance; an empty list minus a
singleton raises a broadcast `ValueError` (shapes `(0,)` and `(1, 2)`). -/
def npDiffNormSq : List (ℤ × ℤ) → List (ℤ × ℤ) → Except PyErr ℤ
  | [], [] => .ok 0
  | [a], [b] => .ok (sqDist a b)
  | _, _ => .error .valueError

/-- `get_points(start, end)`: take the first two coordinates of each
landmark and swap them. -/
def get_points (start end_ : ℚ × ℚ) : (ℚ × ℚ) × (ℚ × ℚ) :=
  ((start.2, start.1), (end_.2, end_.1))

/-- Embeds `_get_maximum(start, end, edges, angle, is_start)` specialised as
`get_maximum_line` (`angle = 0`, `is_start = -1`).  With `θ = arctan2` of the
swapped `start→end` vector and `(c, s) = (cos θ, sin θ)`, the source casts the
two rays at angles `θ - 0 = θ` and `(θ + 0) * (-1) = -θ`, both from `p1`,
so their direction pairs are `(c, s)` and `(c, -s)`.  Returns the squared
`np.linalg.norm` of the difference of the two hit lists. -/
def get_maximum_line (E : Raster) (start end_ : ℚ × ℚ) (c s : ℚ)
    (fuel : ℕ) : Option (Except PyErr ℤ) := do
  let p := get_points start end_
  let max1 ← find_edge E p.1 (c, s) fuel
  let max2 ← find_edge E p.1 (c, -s) fuel
  pure (npDiffNormSq max1 max2)

/-- Embeds `_get_maximum` specialised as `get_maximum_start`
(`angle = π/2`, `is_start = 1`): ray angles `θ - π/2` and `θ + π/2`,
direction pairs `(s, -c)` and `(-s, c)`, both from `p1`. -/
def get_maximum_start (E : Raster) (start end_ : ℚ × ℚ) (c s : ℚ)
    (fuel : ℕ) : Option (Except PyErr ℤ) := do
  let p := get_points start end_
  let max1 ← find_edge E p.1 (s, -c) fuel
  let max2 ← find_edge E p.1 (-s, c) fuel
  pure (npDiffNormSq max1 max2)

/-- `np.linspace(a, b, 100)`: the 100 evenly spaced values `a + i*(b-a)/99`
(`mkRat i 99 = (i : ℚ) / 99`). -/
def linspace (a b : ℚ) : List ℚ :=
  (List.range 100).map (fun i => a + (b - a) * mkRat i 99)

/-- The sample list `result = [(y, x) for x, y in zip(x_values, y_values)]`
of `get_maximum_point`, built from the swapped points `p1, p2`. -/
def sample_points (p1 p2 : ℚ × ℚ) : List (ℚ × ℚ) :=
  List.zipWith (fun x y => (y, x)) (linspace p1.2 p2.2) (linspace p1.1 p2.1)

/-- `vector_angle_plus(p1, p2)` = `arctan2(vector) + π/2`; with
`(c, s) = (cos θ, sin θ)` of the vector, the direction pair of the
shifted angle is `(cos (θ+π/2), sin (θ+π/2)) = (-s, c)`. -/
def dirPlus (c s : ℚ) : ℚ × ℚ := (-s, c)

/-- `vector_angle_minus(p1, p2)` = `arctan2(vector) - π/2`, direction pair
`(cos (θ-π/2), sin (θ-π/2)) = (s, -c)`. -/
def dirMinus (c s : ℚ) : ℚ × ℚ := (s, -c)

/-- `get_maximum_range(angle_radians, result, edges)`: run the `find_edge`
march from every sample point in turn, appending the hit (if any) of each
to the shared `save` list; a ray that exits bounds appends nothing. -/
def get_maximum_range (E : Raster) (dir : ℚ × ℚ) (pts : List (ℚ × ℚ))
    (fuel : ℕ) : Option (List (ℤ × ℤ)) :=
  match pts with
  | [] => some []
  | p :: rest => do
    let h ← find_edge E p dir fuel
    let r ← get_maximum_range E dir rest fuel
    pure (h ++ r)

/-- Per-index squared norms `np.linalg.norm(np.array(top) - np.array(bottom), axis=1)`
(squares of the true norms; all comparisons performed on them are
strictly monotone in the square). -/
def normsSq (top bottom : List (ℤ × ℤ)) : List ℤ :=
  List.zipWith sqDist top bottom

/-- The selection loop of the utils `get_max_approx`: running maximum
initialised to `norms[0]`, and the scan breaks (returning the index saved
so far) at the first `i` with `norms[i] > max_norm` and
`norms[i] > norms[0] * 1.5` (on squares: `4 * nsq i > 9 * nsq 0`). -/
def gmaLoopU : List ℤ → ℤ → ℤ → ℕ → ℕ → ℕ
  | [], _, _, _, idx => idx
  | v :: rest, n0, maxN, i, idx =>
    if maxN < v then
      (if 9 * n0 < 4 * v then idx else gmaLoopU rest n0 v (i + 1) i)
    else gmaLoopU rest n0 maxN (i + 1) idx

/-- The selection loop of the `get_max_approx` nested in
`_get_maximum_point` (im2meas): running maximum initialised to `0`,
no break heuristic. -/
def gmaLoopM : List ℤ → ℤ → ℕ → ℕ → ℕ
  | [], _, _, idx => idx
  | v :: rest, maxN, i, idx =>
    if maxN < v then gmaLoopM rest v (i + 1) i
    else gmaLoopM rest maxN (i + 1) idx

/-- `get_max_approx(top_arr, bottom_arr)` of `src/utils/get_maximum.py`:
mismatched lengths print a message and return `None` (`.ok none`);
equal empty arrays raise (`np.linalg.norm(..., axis=1)` on a 1-D empty
array: `.error .axisError`); otherwise the scan with the 1.5-break runs. -/
def get_max_approx_utils (top bottom : List (ℤ × ℤ)) : Except PyErr (Option ℕ) :=
  if top.length ≠ bottom.length then .ok none
  else if top.length = 0 then .error .axisError
  else
    let nsq := normsSq top bottom
    .ok (some (gmaLoopU nsq (nsq.headD 0) (nsq.headD 0) 0 0))

/-- The `get_max_approx` nested in `YeadonModel._get_maximum_point`:
same length guard and empty-array error, scan without the break and with
running maximum starting at `0`. -/
def get_max_approx_m (top bottom : List (ℤ × ℤ)) : Except PyErr (Option ℕ) :=
  if top.length ≠ bottom.length then .ok none
  else if top.length = 0 then .error .axisError
  else .ok (some (gmaLoopM (normsSq top bottom) 0 0 0))

/-- Shared tail of both `get_maximum_point` versions: index selection and
`result[index][::-1]`.  `result[None]` raises `TypeError`; an in-range
index returns the sample tuple reversed. -/
def select_point (res : List (ℚ × ℚ)) :
    Except PyErr (Option ℕ) → Except PyErr (ℚ × ℚ)
  | .error e => .error e
  | .ok none => .error .typeError
  | .ok (some i) =>
    match res.get? i with
    | some q => .ok (q.2, q.1)
    | none => .error .indexError

/-- `get_maximum_point(start, end, edges)` of `src/utils/get_maximum.py`:
100 samples along the swapped segment, one `get_maximum_range` pass per
perpendicular side, index from the utils `get_max_approx`, sample tuple
reversed.  `(c, s)` is the `(cos, sin)` pair of the segment vector's
`arctan2` angle. -/
def get_maximum_point_utils (E : Raster) (start end_ : ℚ × ℚ) (c s : ℚ)
    (fuel : ℕ) : Option (Except PyErr (ℚ × ℚ)) := do
  let p := get_points start end_
  let res := sample_points p.1 p.2
  let r_side ← get_maximum_range E (dirPlus c s) res fuel
  let l_side ← get_maximum_range E (dirMinus c s) res fuel
  pure (select_point res (get_max_approx_utils r_side l_side))

/-- `YeadonModel._get_maximum_point`: identical to the utils version except
for its own `get_max_approx` (no 1.5-break, running maximum from 0). -/
def get_maximum_point_m (E : Raster) (start end_ : ℚ × ℚ) (c s : ℚ)
    (fuel : ℕ) : Option (Except PyErr (ℚ × ℚ)) := do
  let p := get_points start end_
  let res := sample_points p.1 p.2
  let r_side ← get_maximum_range E (dirPlus c s) res fuel
  let l_side ← get_maximum_range E (dirMinus c s) res fuel
  pure (select_point res (get_max_approx_m r_side l_side))

/-- Python tuple comparison `a < b` on integer pairs (lexicographic). -/
def tupLt (a b : ℤ × ℤ) : Bool :=
  decide (a.1 < b.1) || (decide (a.1 = b.1) && decide (a.2 < b.2))

/-- Python list comparison `a < b` on lists of integer pairs (lexicographic). -/
def listLtPy : List (ℤ × ℤ) → List (ℤ × ℤ) → Bool
  | [], [] => false
  | [], _ :: _ => true
  | _ :: _, [] => false
  | a :: as_, b :: bs => tupLt a b || (decide (a = b) && listLtPy as_ bs)

/-- Python `max(a, b)` on two hit lists: `b` if `a < b`, else `a`. -/
def pyMax (a b : List (ℤ × ℤ)) : List (ℤ × ℤ) := if listLtPy a b then b else a

/-- One hill-climb loop of `get_maximum_pit`: step the angle index by
`step` (`+1` = `+0.01` rad, `-1` = `-0.01` rad), cast, and stop at the
first cast whose norm is strictly smaller than the saved one, returning
`(max_last, max_save)`; otherwise save the cast and continue.  `trig k`
is the `(cos, sin)` pair of the angle `k * 0.01` (the initial
`arctan2((5,0))` angle is `0`). -/
def pit_climb (E : Raster) (pt : ℚ × ℚ) (trig : ℤ → ℚ × ℚ) (step : ℤ)
    (ifuel : ℕ) : ℕ → ℤ → List (ℤ × ℤ) → Option (List (ℤ × ℤ) × List (ℤ × ℤ))
  | 0, _, _ => none
  | ofuel + 1, k, save => do
    let last ← find_edge E pt (trig (k + step)) ifuel
    if normSqList last < normSqList save then pure (last, save)
    else pit_climb E pt trig step ifuel ofuel (k + step) last

/-- `get_maximum_pit(start, edges)`: swap the anchor, cast the initial ray
at angle `arctan2((5, 0)) = 0`, run the two hill-climbs, then compute
`delta` (`np.linalg.norm` of the difference of the two last casts — its
value is unused but a shape mismatch raises the broadcast `ValueError`),
and return `point[0]` and `int(np.linalg.norm(point))` for
`point = max(max_save_left, max_last_right)` (Python list `max`;
`point[0]` on an empty list raises `IndexError`; the `int` of the norm is
`Int.sqrt` of the squared norm). -/
def get_maximum_pit (E : Raster) (start : ℚ × ℚ) (trig : ℤ → ℚ × ℚ)
    (ifuel ofuel : ℕ) : Option (Except PyErr ((ℤ × ℤ) × ℤ)) := do
  let point : ℚ × ℚ := (start.2, start.1)
  let max_save ← find_edge E point (trig 0) ifuel
  let rloop ← pit_climb E point trig 1 ifuel ofuel 0 max_save
  let lloop ← pit_climb E point trig (-1) ifuel ofuel 0 max_save
  pure (match npDiffNormSq lloop.1 rloop.1 with
    | .error e => .error e
    | .ok _ =>
      match pyMax lloop.2 rloop.1 with
      | [] => .error .indexError
      | q :: _ => .ok (q, Int.sqrt (normSqList (pyMax lloop.2 rloop.1))))

/-- `crop(image, position_1, position_2)`: truncate the two corner
coordinates to `int`, sort each axis, and slice `image[y1:y2, x1:x2]`
(nonnegative corner coordinates assumed, as produced by the landmark
data; Python negative-index slicing is not modelled). -/
def crop (image : Raster) (pos1 pos2 : ℚ × ℚ) : Raster :=
  let x1 := itrunc pos1.1
  let y1 := itrunc pos1.2
  let x2 := itrunc pos2.1
  let y2 := itrunc pos2.2
  ((image.drop (min y1 y2).toNat).take ((max y1 y2).toNat - (min y1 y2).toNat)).map
    (fun row => (row.drop (min x1 x2).toNat).take ((max x1 x2).toNat - (min x1 x2).toNat))

/-- `np.where(p(pixel))` on a raster: the row-major list of `(row, col)`
indices whose value satisfies `p` (`np.where`'s pair of arrays, fused:
`[0][i]` is the `.1` of the `i`-th entry, `[1][i]` the `.2`). -/
def whereList (p : ℕ → Bool) (E : Raster) : List (ℕ × ℕ) :=
  (E.enum.map (fun r => r.2.enum.filterMap
    (fun cv => if p cv.2 then some (r.1, cv.1) else none))).flatten

/-- `YeadonModel._get_crotch_right_left(edges, data)`: crop between
`data[12]` and `data[13]`, read `np.where(zone != 0)[1][0]` (first
nonzero's column) and `np.where(zone != 0)[0][1]` (second nonzero's row);
fewer than two nonzero pixels in the crop raise `IndexError`.  Builds the
two crotch points from `data[12]` / `data[11]` and the second row index. -/
def get_crotch_right_left (E : Raster) (d12 d13 d11 : ℚ × ℚ) :
    Except PyErr ((ℚ × ℚ) × (ℚ × ℚ)) :=
  let zone := crop E d12 d13
  let w := whereList (fun v => v ≠ 0) zone
  match w.get? 0, w.get? 1 with
  | some _, some w1 =>
    .ok ((d12.1, d12.2 + (w1.1 : ℚ)), (d11.1, d11.2 + (w1.1 : ℚ)))
  | _, _ => .error .indexError

/-- The quadrant masking of `_find_acromion_right`:
`cropped[:rows/2, :] = 0` then `cropped[:, :cols/2] = 0`. -/
def zero_top_left (c : Raster) : Raster :=
  c.enum.map (fun r => r.2.enum.map
    (fun cv => if r.1 < c.length / 2 ∨ cv.1 < (List.headD c []).length / 2
               then 0 else cv.2))

/-- `YeadonModel._find_acromion_right(edges, data)`: crop between the ear
`data[4]` and shoulder `data[6]`, zero the top and left halves, and read
`np.where(cropped == 255)[1][0]` / `[0][0]` (first 255's column and row);
an empty crop (`cropped_img[0]`) or no 255 pixel raises `IndexError`. -/
def find_acromion_right (E : Raster) (d4 d6 : ℚ × ℚ) : Except PyErr (ℚ × ℚ) :=
  let c := crop E d4 d6
  if c.length = 0 then .error .indexError
  else
    let w := whereList (fun v => v = 255) (zero_top_left c)
    match w.get? 0 with
    | some w0 => .ok (d4.1 - (w0.2 : ℚ), d4.2 + (w0.1 : ℚ))
    | none => .error .indexError

/-- `YeadonModel._stadium_perimeter(width, depth)`:
`2 * (π * (depth/2) + (width - depth))`. -/
noncomputable def stadium_perimeter (width depth : ℝ) : ℝ :=
  2 * (Real.pi * (depth / 2) + (width - depth))

/-- `YeadonModel._circle_perimeter(diag)`: `2 * π * (diag/2)`. -/
noncomputable def circle_perimeter (diag : ℝ) : ℝ :=
  2 * Real.pi * (diag / 2)

/-- First index of the maximal entry of a list (scan state: current max,
next index, best index). -/
def idxOfMaxAux : List ℤ → ℤ → ℕ → ℕ → ℕ
  | [], _, _, best => best
  | v :: rest, m, i, best =>
    if m < v then idxOfMaxAux rest v (i + 1) i
    else idxOfMaxAux rest m (i + 1) best

/-- First index of the maximal entry of a nonempty list. -/
def idxOfMax : List ℤ → ℕ
  | [] => 0
  | v :: rest => idxOfMaxAux rest v 1 0

/-- Modelled from the spec's words for `widthAcrossLine` (§4.2), for
comparison with the source's `get_maximum_line`: one ray from `start`
and one from `end`, perpendicular to the `start→end` vector, in opposite
directions; result is the squared distance between the two hit points. -/
def widthAcrossLineSpec (E : Raster) (start end_ : ℚ × ℚ) (c s : ℚ)
    (fuel : ℕ) : Option (Except PyErr ℤ) := do
  let p := get_points start end_
  let m1 ← find_edge E p.1 (dirPlus c s) fuel
  let m2 ← find_edge E p.2 (dirMinus c s) fuel
  pure (npDiffNormSq m1 m2)

/-- Modelled from the spec's words for `locateExtremum` (§4.3), for
comparison with the source's `get_maximum_point`: 100 samples along the
segment, two perpendicular rays from every sample, the sample's local
width is the distance between its own two hit points, and the returned
sample is the one of (first) maximal local width, coordinates reversed.
`none` if a ray misses or is still marching (the claim's premise pairs
each sample with both of its hits). -/
def locateExtremumSpec (E : Raster) (start end_ : ℚ × ℚ) (c s : ℚ)
    (fuel : ℕ) : Option (ℚ × ℚ) := do
  let p := get_points start end_
  let res := sample_points p.1 p.2
  let hits ← res.mapM (fun pt => do
    let a ← find_edge E pt (dirPlus c s) fuel
    let b ← find_edge E pt (dirMinus c s) fuel
    match a, b with
    | [ha], [hb] => some (ha, hb)
    | _, _ => none)
  let widths := hits.map (fun ab => sqDist ab.1 ab.2)
  let q ← res.get? (idxOfMax widths)
  pure (q.2, q.1)

/-- A 4x4 raster with no boundary pixel. -/
def rasterZeros : Raster := [[0,0,0,0],[0,0,0,0],[0,0,0,0],[0,0,0,0]]

/-- A 4x4 raster whose only boundary pixel is at row 2, column 1. -/
def rasterOne : Raster := [[0,0,0,0],[0,0,0,0],[0,255,0,0],[0,0,0,0]]

/-- A 4x4 raster with boundary pixels at (1,3) and (2,0). -/
def rasterSide : Raster := [[0,0,0,0],[0,0,0,255],[255,0,0,0],[0,0,0,0]]

/-- A 3x2 raster: boundary on (0,1), (1,0) and (2,1). -/
def rasterTaper : Raster := [[0,255],[255,0],[0,255]]

/-- A 100x2 raster: boundary at column 0 of every row except row 50,
which has it at column 1. -/
def rasterCol : Raster :=
  (List.range 100).map (fun i => if i = 50 then [0, 255] else [255, 0])

/-- A 3x3 raster with no boundary pixel. -/
def rasterZeros3 : Raster := [[0,0,0],[0,0,0],[0,0,0]]

/-- A 4x3 raster whose only boundary pixel is at row 2, column 1. -/
def rasterPit : Raster := [[0,0,0],[0,0,0],[0,255,0],[0,0,0]]

/-- A concrete stand-in for the pit's `(cos, sin)` table: exact at the
initial angle 0, and a unit-length pair at the two angles `±0.01` that the
counterexample run visits. -/
def trigPit (k : ℤ) : ℚ × ℚ :=
  if k = 1 then (mkRat 3 5, mkRat 4 5)
  else if k = -1 then (mkRat 3 5, -(mkRat 4 5))
  else (1, 0)



/-- No iteration before the `k`-th leaves bounds or reaches a boundary pixel. -/
def freeBefore (E : Raster) (p dir : ℚ × ℚ) (k : ℕ) : Prop :=
  ∀ j < k, inB E (marchPt p dir j).1 (marchPt p dir j).2 = true ∧
    rasterAt E (marchPt p dir j).1 (marchPt p dir j).2 ≠ 255

/-- The march leaves the raster at iteration `k`, having neither left nor
hit before. -/
def FirstMiss (E : Raster) (p dir : ℚ × ℚ) (k : ℕ) : Prop :=
  inB E (marchPt p dir k).1 (marchPt p dir k).2 = false ∧ freeBefore E p dir k

/-- The march reaches its first boundary pixel at iteration `k`. -/
def FirstHit (E : Raster) (p dir : ℚ × ℚ) (k : ℕ) : Prop :=
  inB E (marchPt p dir k).1 (marchPt p dir k).2 = true ∧
  rasterAt E (marchPt p dir k).1 (marchPt p dir k).2 = 255 ∧ freeBefore E p dir k

instance (E : Raster) (p dir : ℚ × ℚ) (k : ℕ) :
    Decidable (freeBefore E p dir k) := by
  unfold freeBefore
  infer_instance

instance (E : Raster) (p dir : ℚ × ℚ) (k : ℕ) :
    Decidable (FirstMiss E p dir k) := by
  unfold FirstMiss
  infer_instance

instance (E : Raster) (p dir : ℚ × ℚ) (k : ℕ) :
    Decidable (FirstHit E p dir k) := by
  unfold FirstHit
  infer_instance

/-- A 3x4 raster with boundary pixels at (1,0) and (1,3). -/
def rasterAcross : Raster := [[0,0,0,0],[255,0,0,255],[0,0,0,0]]

/-- The plus-side hit list on `rasterTaper`: samples 0..98 hit their own
boundary pixel at distance 0, sample 99's upward ray hits `(0, 1)`. -/
def rsTaper : List (ℤ × ℤ) := List.replicate 99 (0, 1) ++ [(1, 0)]

/-- The minus-side hit list on `rasterTaper`: samples 0..98 hit at
distance 0, sample 99's downward ray hits `(2, 1)`. -/
def lsTaper : List (ℤ × ℤ) := List.replicate 99 (0, 1) ++ [(1, 2)]

/-- The concrete trig table is everywhere a unit `(cos, sin)` pair, as the
embedded angle representation requires. -/
lemma trigPit_unit : ∀ k : ℤ, (trigPit k).1 ^ 2 + (trigPit k).2 ^ 2 = 1 := by
  intro k
  unfold trigPit
  split
  · norm_num [Rat.mkRat_eq_div]
  · split
    · norm_num [Rat.mkRat_eq_div]
    · norm_num

/-- C8: `_stadium_perimeter(width, depth)` is `2*(π*depth/2 + (width-depth))`
and `_circle_perimeter(diag)` is `π*diag`; hence a stadium with
`width = depth = d` has the perimeter of the circle of diameter `d`, and
`_stadium_perimeter(20, 10) = 10π + 20`. -/
theorem stadium_circle_perimeter_formulas :
    (∀ w d : ℝ, stadium_perimeter w d = 2 * (Real.pi * (d / 2) + (w - d))) ∧
    (∀ x : ℝ, circle_perimeter x = Real.pi * x) ∧
    (∀ d : ℝ, stadium_perimeter d d = circle_perimeter d) ∧
    stadium_perimeter 20 10 = 10 * Real.pi + 20 := by
  refine ⟨fun w d => rfl, fun x => ?_, fun d => ?_, ?_⟩
  · unfold circle_perimeter; ring
  · unfold stadium_perimeter circle_perimeter; ring
  · unfold stadium_perimeter; ring

/-- C1: at landmark pairs whose rays miss, the width functions do not
produce a miss sentinel: on the boundary-free raster both rays of
`_get_maximum_line` and `_get_maximum_start` miss and the result is the
silent scalar `0.0` (the norm of an empty difference), and on `rasterOne`
(landmarks `(0,1)`, `(4,4)`, segment angle `(cos, sin) = (3/5, 4/5)`) the
first ray hits while the second misses, so the norm of the malformed
difference of a `(1,2)`-shaped and a `(0,)`-shaped array raises a
broadcast `ValueError` that escapes to the caller. -/
theorem width_miss_silent_zero_or_exception :
    get_maximum_line rasterZeros (1, 1) (1, 2) 1 0 310 = some (.ok 0) ∧
    get_maximum_start rasterZeros (1, 1) (1, 2) 1 0 310 = some (.ok 0) ∧
    get_maximum_line rasterOne (0, 1) (4, 4) (mkRat 3 5) (mkRat 4 5) 200 =
      some (.error .valueError) := by
  with_unfolding_all decide

/-- C2 counterexample: on `rasterSide` with landmarks `(1,1)`, `(1,2)`
(swapped segment vector `(1, 0)`, so `(c, s) = (1, 0)`), the spec's
description — one ray from `start` and one from `end`, perpendicular to
the segment, opposite directions, distance between the two hit points —
gives squared width `10`, but `_get_maximum_line` returns `0.0`: both its
rays start at `p1` and point along the segment (angles `θ` and `-θ`),
march down column 1, and exit the raster. -/
theorem width_across_line_counterexample :
    get_maximum_line rasterSide (1, 1) (1, 2) 1 0 310 = some (.ok 0) ∧
    widthAcrossLineSpec rasterSide (1, 1) (1, 2) 1 0 310 = some (.ok 10) ∧
    (some (Except.ok 0) : Option (Except PyErr ℤ)) ≠ some (.ok 10) := by
  with_unfolding_all decide

/-- C4 counterexample: on `rasterTaper` with landmarks `(0,1)`, `(1,1)`
(segment `(c, s) = (0, 1)`), all 200 rays hit, the local widths are `0`
at samples 0..98 and `4` (squared) at sample 99, so the claim's value —
the sample of maximal local width, reversed — is `(1, 1)`; but the utils
`get_maximum_point` stops its scan at sample 99 (whose width exceeds 1.5
times the first width) and returns sample 0 instead: `(0, 1)`. -/
theorem extremum_point_counterexample :
    get_maximum_point_utils rasterTaper (0, 1) (1, 1) 0 1 150 =
      some (.ok (0, 1)) ∧
    locateExtremumSpec rasterTaper (0, 1) (1, 1) 0 1 150 = some (1, 1) ∧
    (some (Except.ok ((0 : ℚ), (1 : ℚ))) : Option (Except PyErr (ℚ × ℚ))) ≠
      some (.ok (1, 1)) := by
  with_unfolding_all decide

/-- C5: on `rasterCol` with landmarks `(0,0)`, `(0,99)` (segment
`(c, s) = (1, 0)`), sample 50's two rays hit on one side and miss on the
other, so the per-side hit lists have lengths 100 and 99; `get_max_approx`
prints a message and returns `None`, and the subsequent `result[None]`
raises a `TypeError` that escapes — the whole engine run crashes instead
of reporting a contained contract violation. -/
theorem mismatched_sides_raise_type_error :
    get_maximum_point_utils rasterCol (0, 0) (0, 99) 1 0 250 =
      some (.error .typeError) ∧
    get_maximum_point_m rasterCol (0, 0) (0, 99) 1 0 250 =
      some (.error .typeError) := by
  with_unfolding_all decide

/-- C7: a crop of the boundary-free raster contains no boundary pixel, and
both the crotch search and the acromion search raise `IndexError`
(`np.where(...)[...][0]` on an empty index array) instead of reporting a
distinct empty-region condition. -/
theorem empty_crop_raises_index_error :
    get_crotch_right_left rasterZeros (0, 0) (2, 2) (1, 1) =
      .error .indexError ∧
    find_acromion_right rasterZeros (0, 0) (2, 2) = .error .indexError := by
  with_unfolding_all decide

/-- C9 counterexample: on the equal-length nonempty arrays
`[(0,1),(0,2)]` and `[(0,0),(0,0)]` (norms `1` and `2`), the utils
`get_max_approx` breaks at index 1 (`2 > 1.5 * 1`) and returns index `0`,
while the `_get_maximum_point` variant returns the argmax index `1`. -/
theorem get_max_approx_variants_differ :
    get_max_approx_utils [(0, 1), (0, 2)] [(0, 0), (0, 0)] = .ok (some 0) ∧
    get_max_approx_m [(0, 1), (0, 2)] [(0, 0), (0, 0)] = .ok (some 1) ∧
    get_max_approx_utils [(0, 1), (0, 2)] [(0, 0), (0, 0)] ≠
      get_max_approx_m [(0, 1), (0, 2)] [(0, 0), (0, 0)] := by
  with_unfolding_all decide

/-- C3 counterexample: on `rasterPit` with anchor `(1,1)` and the unit
trig table `trigPit` (see `trigPit_unit`), the pit search terminates: the
initial ray hits the boundary pixel at row 2, column 1 (hit tuple
`(1, 2)` in the stored `(col, row)` order), both climbs break on their
first cast, and the function returns that point with distance
`int(norm((1, 2))) = 2` — the truncated distance of the hit pixel from
the raster origin.  The claim's value — the hit point's distance from the
anchor `(1, 1)` — is `Int.sqrt (sqDist (2, 1) (1, 1)) = 1 ≠ 2`. -/
theorem pit_return_counterexample :
    get_maximum_pit rasterPit (1, 1) trigPit 260 5 =
      some (.ok ((1, 2), 2)) ∧
    Int.sqrt (sqDist (2, 1) (1, 1)) = 1 ∧ (2 : ℤ) ≠ 1 := by
  with_unfolding_all decide


lemma march_step (j : ℕ) :
    mkRat j 100 + mkRat 1 100 = mkRat ((j + 1 : ℕ) : ℤ) 100 := by
  rw [Rat.mkRat_eq_div, Rat.mkRat_eq_div, Rat.mkRat_eq_div]
  push_cast
  ring

lemma find_edge_from_of_firstMiss (E : Raster) (p dir : ℚ × ℚ) (k : ℕ)
    (hm : FirstMiss E p dir k) :
    ∀ fuel j, j ≤ k → k - j < fuel →
      find_edge_from E p dir fuel (mkRat j 100) = some [] := by
  intro fuel
  induction fuel with
  | zero => intro j _ h; omega
  | succ f ih =>
    intro j hj hlt
    rcases eq_or_lt_of_le hj with rfl | hjk
    · simp only [find_edge_from]
      rw [show pt_from p dir (mkRat j 100) = marchPt p dir j from rfl, hm.1]
      simp
    · have hfree := hm.2 j hjk
      simp only [find_edge_from]
      rw [show pt_from p dir (mkRat j 100) = marchPt p dir j from rfl,
        hfree.1]
      simp only [Bool.true_eq_false, if_false, if_neg hfree.2]
      rw [march_step j]
      exact ih (j + 1) (by omega) (by omega)

lemma find_edge_from_of_firstHit (E : Raster) (p dir : ℚ × ℚ) (k : ℕ)
    (hh : FirstHit E p dir k) :
    ∀ fuel j, j ≤ k → k - j < fuel →
      find_edge_from E p dir fuel (mkRat j 100) =
        some [((marchPt p dir k).2, (marchPt p dir k).1)] := by
  intro fuel
  induction fuel with
  | zero => intro j _ h; omega
  | succ f ih =>
    intro j hj hlt
    rcases eq_or_lt_of_le hj with rfl | hjk
    · simp only [find_edge_from]
      rw [show pt_from p dir (mkRat j 100) = marchPt p dir j from rfl,
        hh.1, if_pos hh.2.1]
      simp
    · have hfree := hh.2.2 j hjk
      simp only [find_edge_from]
      rw [show pt_from p dir (mkRat j 100) = marchPt p dir j from rfl,
        hfree.1]
      simp only [Bool.true_eq_false, if_false, if_neg hfree.2]
      rw [march_step j]
      exact ih (j + 1) (by omega) (by omega)

lemma mkRat_zero_den (d : ℕ) : mkRat 0 d = (0 : ℚ) := by
  simp

lemma find_edge_of_firstMiss (E : Raster) (p dir : ℚ × ℚ) (k fuel : ℕ)
    (hm : FirstMiss E p dir k) (hf : k < fuel) :
    find_edge E p dir fuel = some [] := by
  have h := find_edge_from_of_firstMiss E p dir k hm fuel 0 (Nat.zero_le _)
    (by omega)
  rw [find_edge, show (0 : ℚ) = mkRat (0 : ℕ) 100 by simp]
  exact h

lemma find_edge_of_firstHit (E : Raster) (p dir : ℚ × ℚ) (k fuel : ℕ)
    (hh : FirstHit E p dir k) (hf : k < fuel) :
    find_edge E p dir fuel =
      some [((marchPt p dir k).2, (marchPt p dir k).1)] := by
  have h := find_edge_from_of_firstHit E p dir k hh fuel 0 (Nat.zero_le _)
    (by omega)
  rw [find_edge, show (0 : ℚ) = mkRat (0 : ℕ) 100 by simp]
  exact h

lemma itrunc_ge_of_le (q : ℚ) (B : ℤ) (hB : 0 ≤ B) (h : (B : ℚ) ≤ q) :
    B ≤ itrunc q := by
  unfold itrunc
  have hq : ¬ q < 0 := by
    intro hq
    have : (B : ℚ) < 0 := lt_of_le_of_lt h hq
    exact absurd this (by exact_mod_cast not_lt.mpr hB)
  rw [if_neg hq]
  exact Int.le_floor.mpr h

lemma itrunc_neg_of_le (q : ℚ) (h : q ≤ -1) : itrunc q < 0 := by
  unfold itrunc
  have hq : q < 0 := lt_of_le_of_lt h (by norm_num)
  rw [if_pos hq]
  have : ⌈q⌉ ≤ -1 := Int.ceil_le.mpr (by exact_mod_cast h)
  omega

lemma coord_exits (a v : ℚ) (B : ℤ) (hB : 0 ≤ B) (hv : 1 / 2 ≤ |v|) :
    ∀ k0 : ℕ, ∃ k : ℕ, k0 ≤ k ∧
      (itrunc (a + v * mkRat k 100) < 0 ∨ B ≤ itrunc (a + v * mkRat k 100)) := by
  intro k0
  rcases le_abs.mp hv with hvp | hvn
  · -- v ≥ 1/2 : the coordinate grows beyond B
    obtain ⟨n, hn⟩ := exists_nat_ge (200 * ((B : ℚ) - a))
    refine ⟨max n k0, le_max_right _ _, Or.inr ?_⟩
    set m := max n k0 with hm
    apply itrunc_ge_of_le _ _ hB
    rw [Rat.mkRat_eq_div]
    push_cast
    have hnk : (n : ℚ) ≤ (m : ℚ) := by exact_mod_cast Nat.le_max_left n k0
    have hm0 : (0 : ℚ) ≤ (m : ℚ) := by positivity
    nlinarith [mul_nonneg (sub_nonneg.mpr hvp) hm0]
  · -- v ≤ -1/2 : the coordinate falls below -1
    obtain ⟨n, hn⟩ := exists_nat_ge (200 * (a + 1))
    refine ⟨max n k0, le_max_right _ _, Or.inl ?_⟩
    set m := max n k0 with hm
    apply itrunc_neg_of_le
    rw [Rat.mkRat_eq_div]
    push_cast
    have hnk : (n : ℚ) ≤ (m : ℚ) := by exact_mod_cast Nat.le_max_left n k0
    have hm0 : (0 : ℚ) ≤ (m : ℚ) := by positivity
    nlinarith [mul_nonneg (sub_nonneg.mpr hvn) hm0]

lemma inB_false_of_coord (E : Raster) (x y : ℤ)
    (h : x < 0 ∨ rrows E ≤ x ∨ y < 0 ∨ rcols E ≤ y) : inB E x y = false := by
  unfold inB
  rcases h with h | h | h | h
  · simp [not_le.mpr h]
  · simp [not_lt.mpr h]
  · simp [not_le.mpr h]
  · simp [not_lt.mpr h]

lemma unit_dir_half (c s : ℚ) (h : c ^ 2 + s ^ 2 = 1) :
    1 / 2 ≤ |c| ∨ 1 / 2 ≤ |s| := by
  by_contra hc
  push_neg at hc
  nlinarith [sq_abs c, sq_abs s, abs_nonneg c, abs_nonneg s, hc.1, hc.2]

lemma ray_exits (E : Raster) (p : ℚ × ℚ) (c s : ℚ) (h : c ^ 2 + s ^ 2 = 1) :
    ∃ k : ℕ, inB E (marchPt p (c, s) k).1 (marchPt p (c, s) k).2 = false := by
  have hr : (0 : ℤ) ≤ rrows E := by
    unfold rrows; exact_mod_cast Nat.zero_le _
  have hcn : (0 : ℤ) ≤ rcols E := by
    unfold rcols; exact_mod_cast Nat.zero_le _
  rcases unit_dir_half c s h with hc | hs
  · obtain ⟨k, -, hk⟩ := coord_exits p.1 c (rrows E) hr hc 0
    exact ⟨k, inB_false_of_coord E _ _ (by
      rcases hk with hk | hk
      · exact Or.inl hk
      · exact Or.inr (Or.inl hk))⟩
  · obtain ⟨k, -, hk⟩ := coord_exits p.2 s (rcols E) hcn hs 0
    exact ⟨k, inB_false_of_coord E _ _ (by
      rcases hk with hk | hk
      · exact Or.inr (Or.inr (Or.inl hk))
      · exact Or.inr (Or.inr (Or.inr hk)))⟩

/-- C6: for every raster, origin and unit direction pair
`(cos, sin) = (c, s)`, the `find_edge` march — which probes
`origin + (k/100) * (cos, sin)` truncated to pixel coordinates at its
`k`-th iteration — terminates within some finite fuel, returning either
the miss `[]` at the first out-of-bounds iteration (no earlier iteration
in bounds having value 255) or the singleton `[(y, x)]` of the first
boundary pixel of value 255 it reaches. -/
theorem ray_march_terminates (E : Raster) (p : ℚ × ℚ) (c s : ℚ)
    (h : c ^ 2 + s ^ 2 = 1) :
    ∃ fuel r, find_edge E p (c, s) fuel = some r ∧
      ((∃ k, FirstMiss E p (c, s) k ∧ r = []) ∨
       (∃ k, FirstHit E p (c, s) k ∧
          r = [((marchPt p (c, s) k).2, (marchPt p (c, s) k).1)] ∧
          rasterAt E (marchPt p (c, s) k).1 (marchPt p (c, s) k).2 = 255)) := by
  classical
  obtain ⟨k0, hk0⟩ := ray_exits E p c s h
  have hex : ∃ k : ℕ,
      inB E (marchPt p (c, s) k).1 (marchPt p (c, s) k).2 = false ∨
      rasterAt E (marchPt p (c, s) k).1 (marchPt p (c, s) k).2 = 255 :=
    ⟨k0, Or.inl hk0⟩
  set k := Nat.find hex with hkdef
  have hkP := Nat.find_spec hex
  have hfree : freeBefore E p (c, s) k := by
    intro j hj
    have hnP := Nat.find_min hex hj
    push_neg at hnP
    refine ⟨?_, hnP.2⟩
    rcases Bool.eq_false_or_eq_true
      (inB E (marchPt p (c, s) j).1 (marchPt p (c, s) j).2) with hb | hb
    · exact hb
    · exact absurd hb hnP.1
  by_cases hout : inB E (marchPt p (c, s) k).1 (marchPt p (c, s) k).2 = false
  · exact ⟨k + 1, [], find_edge_of_firstMiss E p (c, s) k (k + 1)
      ⟨hout, hfree⟩ (by omega), Or.inl ⟨k, ⟨hout, hfree⟩, rfl⟩⟩
  · have hin : inB E (marchPt p (c, s) k).1 (marchPt p (c, s) k).2 = true := by
      rcases Bool.eq_false_or_eq_true
        (inB E (marchPt p (c, s) k).1 (marchPt p (c, s) k).2) with hb | hb
      · exact hb
      · exact absurd hb hout
    have hhit : rasterAt E (marchPt p (c, s) k).1 (marchPt p (c, s) k).2 = 255 := by
      rcases hkP with hb | hb
      · exact absurd hb hout
      · exact hb
    exact ⟨k + 1, _, find_edge_of_firstHit E p (c, s) k (k + 1)
      ⟨hin, hhit, hfree⟩ (by omega), Or.inr ⟨k, ⟨hin, hhit, hfree⟩, rfl, hhit⟩⟩

/-- Witness for `ray_march_terminates` at the boundary-free 4x4 raster,
origin `(1, 1)` and the axis direction `(1, 0)`. -/
theorem ray_march_terminates_witness :
    ∃ fuel r, find_edge rasterZeros (1, 1) (1, 0) fuel = some r ∧
      ((∃ k, FirstMiss rasterZeros (1, 1) (1, 0) k ∧ r = []) ∨
       (∃ k, FirstHit rasterZeros (1, 1) (1, 0) k ∧
          r = [((marchPt (1, 1) (1, 0) k).2, (marchPt (1, 1) (1, 0) k).1)] ∧
          rasterAt rasterZeros (marchPt (1, 1) (1, 0) k).1
            (marchPt (1, 1) (1, 0) k).2 = 255)) :=
  ray_march_terminates rasterZeros (1, 1) 1 0 (by norm_num)

lemma z3row_getD (m : ℕ) : List.getD [0, 0, 0] m 0 = 0 := by
  match m with
  | 0 => rfl
  | 1 => rfl
  | 2 => rfl
  | n + 3 => simp [List.getD_cons_succ, List.getD_nil]

lemma z3_getD (n : ℕ) :
    List.getD rasterZeros3 n [] = [0, 0, 0] ∨
    List.getD rasterZeros3 n [] = [] := by
  match n with
  | 0 => exact Or.inl rfl
  | 1 => exact Or.inl rfl
  | 2 => exact Or.inl rfl
  | n + 3 =>
    right
    simp [rasterZeros3, List.getD_cons_succ, List.getD_nil]

lemma rasterZeros3_not255 (x y : ℤ) : rasterAt rasterZeros3 x y ≠ 255 := by
  unfold rasterAt
  rcases z3_getD x.toNat with h | h <;> rw [h]
  · rw [z3row_getD]; omega
  · simp [List.getD_nil]

lemma find_edge_from_zeros3 :
    ∀ (fuel : ℕ) (p dir : ℚ × ℚ) (d : ℚ) (l : List (ℤ × ℤ)),
      find_edge_from rasterZeros3 p dir fuel d = some l → l = [] := by
  intro fuel
  induction fuel with
  | zero => intro p dir d l h; simp [find_edge_from] at h
  | succ f ih =>
    intro p dir d l h
    simp only [find_edge_from] at h
    by_cases hb : inB rasterZeros3 (pt_from p dir d).1 (pt_from p dir d).2 = false
    · rw [if_pos hb] at h
      exact (Option.some.inj h).symm
    · rw [if_neg hb, if_neg (rasterZeros3_not255 _ _)] at h
      exact ih p dir _ l h

lemma pit_climb_zeros3 (pt : ℚ × ℚ) (trig : ℤ → ℚ × ℚ) (step : ℤ)
    (ifuel : ℕ) :
    ∀ (ofuel : ℕ) (k : ℤ),
      pit_climb rasterZeros3 pt trig step ifuel ofuel k [] = none := by
  intro ofuel
  induction ofuel with
  | zero => intro k; rfl
  | succ f ih =>
    intro k
    simp only [pit_climb]
    cases hfe : find_edge rasterZeros3 pt (trig (k + step)) ifuel with
    | none => rfl
    | some l =>
      have hl : l = [] := find_edge_from_zeros3 ifuel pt _ 0 l hfe
      subst hl
      simp only [Option.bind_eq_bind, Option.some_bind]
      rw [if_neg (by simp [normSqList])]
      exact ih (k + step)

/-- C10: on a raster with no boundary pixel (`rasterZeros3`), every cast
ray misses — its hit list is empty with norm 0 — so neither hill-climb's
exit test `norm(last) < norm(save)` (that is, `0 < 0`) can ever hold, and
`get_maximum_pit` never returns, whatever the anchor, the trig table and
the fuel bounds. -/
theorem pit_never_ends_without_boundary (start : ℚ × ℚ)
    (trig : ℤ → ℚ × ℚ) (ifuel ofuel : ℕ) :
    get_maximum_pit rasterZeros3 start trig ifuel ofuel = none := by
  unfold get_maximum_pit
  simp only [Option.bind_eq_bind]
  cases hms : find_edge rasterZeros3 (start.2, start.1) (trig 0) ifuel with
  | none => rfl
  | some ms =>
    have hm : ms = [] := find_edge_from_zeros3 ifuel _ _ 0 ms hms
    subst hm
    simp only [Option.some_bind]
    rw [pit_climb_zeros3]
    rfl

lemma find_edge_from_length (E : Raster) (p dir : ℚ × ℚ) :
    ∀ (fuel : ℕ) (d : ℚ) (l : List (ℤ × ℤ)),
      find_edge_from E p dir fuel d = some l → l.length ≤ 1 := by
  intro fuel
  induction fuel with
  | zero => intro d l h; simp [find_edge_from] at h
  | succ f ih =>
    intro d l h
    simp only [find_edge_from] at h
    by_cases hb : inB E (pt_from p dir d).1 (pt_from p dir d).2 = false
    · rw [if_pos hb] at h
      rw [← Option.some.inj h]
      simp
    · rw [if_neg hb] at h
      by_cases hr : rasterAt E (pt_from p dir d).1 (pt_from p dir d).2 = 255
      · rw [if_pos hr] at h
        rw [← Option.some.inj h]
        simp
      · rw [if_neg hr] at h
        exact ih _ l h

lemma find_edge_length (E : Raster) (p dir : ℚ × ℚ) (fuel : ℕ)
    (l : List (ℤ × ℤ)) (h : find_edge E p dir fuel = some l) : l.length ≤ 1 :=
  find_edge_from_length E p dir fuel 0 l h

lemma pit_climb_length (E : Raster) (pt : ℚ × ℚ) (trig : ℤ → ℚ × ℚ)
    (step : ℤ) (ifuel : ℕ) :
    ∀ (ofuel : ℕ) (k : ℤ) (save : List (ℤ × ℤ))
      (res : List (ℤ × ℤ) × List (ℤ × ℤ)), save.length ≤ 1 →
      pit_climb E pt trig step ifuel ofuel k save = some res →
      res.1.length ≤ 1 ∧ res.2.length ≤ 1 := by
  intro ofuel
  induction ofuel with
  | zero => intro k save res _ h; simp [pit_climb] at h
  | succ f ih =>
    intro k save res hs h
    simp only [pit_climb, Option.bind_eq_bind] at h
    cases hfe : find_edge E pt (trig (k + step)) ifuel with
    | none => rw [hfe] at h; simp at h
    | some last =>
      rw [hfe] at h
      simp only [Option.some_bind] at h
      have hlast := find_edge_length E pt _ ifuel last hfe
      by_cases hlt : normSqList last < normSqList save
      · rw [if_pos hlt] at h
        cases Option.some.inj h
        exact ⟨hlast, hs⟩
      · rw [if_neg hlt] at h
        exact ih _ last res hlast h

lemma pyMax_cases (a b : List (ℤ × ℤ)) : pyMax a b = a ∨ pyMax a b = b := by
  unfold pyMax
  by_cases h : listLtPy a b = true
  · rw [if_pos h]; exact Or.inr rfl
  · rw [if_neg h]; exact Or.inl rfl

/-- C3 amended: whenever `get_maximum_pit` returns a point and a distance,
the distance is `int(np.linalg.norm(point))` — the truncated euclidean
norm of the returned hit tuple's own coordinates, i.e. the distance of
the hit pixel from the raster origin `(0, 0)` — not the hit's distance
from the anchor. -/
theorem pit_distance_from_origin (E : Raster) (start : ℚ × ℚ)
    (trig : ℤ → ℚ × ℚ) (ifuel ofuel : ℕ) (q : ℤ × ℤ) (d : ℤ)
    (h : get_maximum_pit E start trig ifuel ofuel = some (.ok (q, d))) :
    d = Int.sqrt (q.1 ^ 2 + q.2 ^ 2) := by
  unfold get_maximum_pit at h
  simp only [Option.bind_eq_bind] at h
  cases hms : find_edge E (start.2, start.1) (trig 0) ifuel with
  | none => rw [hms] at h; simp at h
  | some ms =>
    rw [hms] at h
    simp only [Option.some_bind] at h
    have hmslen := find_edge_length E _ _ ifuel ms hms
    cases hrl : pit_climb E (start.2, start.1) trig 1 ifuel ofuel 0 ms with
    | none => rw [hrl] at h; simp at h
    | some rloop =>
      rw [hrl] at h
      simp only [Option.some_bind] at h
      have hrlen := pit_climb_length E _ trig 1 ifuel ofuel 0 ms rloop hmslen hrl
      cases hll : pit_climb E (start.2, start.1) trig (-1) ifuel ofuel 0 ms with
      | none => rw [hll] at h; simp at h
      | some lloop =>
        rw [hll] at h
        simp only [Option.some_bind] at h
        have hllen := pit_climb_length E _ trig (-1) ifuel ofuel 0 ms lloop hmslen hll
        cases hdelta : npDiffNormSq lloop.1 rloop.1 with
        | error e => rw [hdelta] at h; simp at h
        | ok v =>
          rw [hdelta] at h
          have hplen : (pyMax lloop.2 rloop.1).length ≤ 1 := by
            rcases pyMax_cases lloop.2 rloop.1 with hp | hp <;> rw [hp]
            · exact hllen.2
            · exact hrlen.1
          cases hpm : pyMax lloop.2 rloop.1 with
          | nil => rw [hpm] at h; simp at h
          | cons q0 rest =>
            rw [hpm] at h
            have hrest : rest = [] := by
              rw [hpm] at hplen
              simp at hplen
              exact hplen
            subst hrest
            simp only [Option.pure_def, Option.some.injEq] at h
            injection h with h3
            have hq : q0 = q := congrArg Prod.fst h3
            have hd : Int.sqrt (normSqList [q0]) = d := congrArg Prod.snd h3
            subst hq
            rw [← hd]
            simp [normSqList]

/-- Witness for `pit_distance_from_origin` at the concrete pit run on
`rasterPit`: the returned distance `2` is `Int.sqrt (1^2 + 2^2)`. -/
theorem pit_distance_from_origin_witness :
    (2 : ℤ) = Int.sqrt ((1 : ℤ) ^ 2 + (2 : ℤ) ^ 2) :=
  pit_distance_from_origin rasterPit (1, 1) trigPit 260 5 (1, 2) 2
    (by with_unfolding_all decide)


/-- C2 amended: `_get_maximum_line` casts BOTH rays from the swapped
`start` point `p1`: with `(c, s)` the `(cos, sin)` pair of the swapped
`start→end` vector (the positive-multiple hypothesis `hvec`), the rays
have direction pairs `(c, s)` (the segment's own angle `θ`) and
`(c, -s)` (the reflected angle `-θ`) — not perpendicular rays from the
two endpoints — and when both rays hit, the result is the distance
between the two hit pixels. -/
theorem width_across_line_amended (E : Raster) (start end_ : ℚ × ℚ)
    (c s : ℚ) (k1 k2 fuel : ℕ)
    (hvec : ∃ r : ℚ, 0 < r ∧ end_.2 - start.2 = r * c ∧
      end_.1 - start.1 = r * s)
    (h1 : FirstHit E (start.2, start.1) (c, s) k1)
    (h2 : FirstHit E (start.2, start.1) (c, -s) k2)
    (hf1 : k1 < fuel) (hf2 : k2 < fuel) :
    get_maximum_line E start end_ c s fuel =
      some (.ok (sqDist
        ((marchPt (start.2, start.1) (c, s) k1).2,
         (marchPt (start.2, start.1) (c, s) k1).1)
        ((marchPt (start.2, start.1) (c, -s) k2).2,
         (marchPt (start.2, start.1) (c, -s) k2).1))) := by
  unfold get_maximum_line
  simp only [Option.bind_eq_bind, get_points]
  rw [find_edge_of_firstHit E _ _ k1 fuel h1 hf1]
  simp only [Option.some_bind]
  rw [find_edge_of_firstHit E _ _ k2 fuel h2 hf2]
  simp [npDiffNormSq]

/-- Witness for `width_across_line_amended` on `rasterAcross`: both rays
from `p1 = (1, 1)` hit (columns 3 and 0 of row 1) and the squared width
is `9`. -/
theorem width_across_line_amended_witness :
    get_maximum_line rasterAcross (1, 1) (100, 1) 0 1 250 =
      some (.ok 9) := by
  have h := width_across_line_amended rasterAcross (1, 1) (100, 1) 0 1
    200 1 250 ⟨99, by norm_num⟩ (by with_unfolding_all decide)
    (by with_unfolding_all decide) (by norm_num) (by norm_num)
  rw [h]
  with_unfolding_all decide

lemma sqDist_nonneg (a b : ℤ × ℤ) : 0 ≤ sqDist a b := by
  unfold sqDist
  positivity

lemma gmaLoopU_eq_gmaLoopM (n0 : ℤ) :
    ∀ (l : List ℤ) (m : ℤ) (i best : ℕ),
      (∀ v ∈ l, 4 * v ≤ 9 * n0) →
      gmaLoopU l n0 m i best = gmaLoopM l m i best := by
  intro l
  induction l with
  | nil => intro m i best _; rfl
  | cons v rest ih =>
    intro m i best hcap
    simp only [gmaLoopU, gmaLoopM]
    by_cases hm : m < v
    · rw [if_pos hm, if_pos hm,
        if_neg (not_lt.mpr (hcap v (List.mem_cons_self v rest)))]
      exact ih v (i + 1) i (fun w hw => hcap w (List.mem_cons_of_mem _ hw))
    · rw [if_neg hm, if_neg hm]
      exact ih m (i + 1) best (fun w hw => hcap w (List.mem_cons_of_mem _ hw))

/-- C9 amended: the two `get_max_approx` implementations agree on every
pair of equal-length nonempty arrays on which the utils version's
1.5-break can never fire — i.e. when no squared norm exceeds `(3/2)^2`
times the first squared norm; in general (see
`get_max_approx_variants_differ`) the break makes them disagree. -/
theorem get_max_approx_agree (top bottom : List (ℤ × ℤ))
    (hlen : top.length = bottom.length) (hne : top ≠ [])
    (hcap : ∀ v ∈ normsSq top bottom,
      4 * v ≤ 9 * (normsSq top bottom).headD 0) :
    get_max_approx_utils top bottom = get_max_approx_m top bottom := by
  match top, bottom with
  | [], _ => exact absurd rfl hne
  | a :: tas, [] => simp at hlen
  | a :: tas, b :: tbs =>
    have hnsq : normsSq (a :: tas) (b :: tbs) =
        sqDist a b :: normsSq tas tbs := rfl
    have hlen' : tas.length = tbs.length := by simpa using hlen
    unfold get_max_approx_utils get_max_approx_m
    rw [if_neg (not_not_intro hlen), if_neg (not_not_intro hlen),
      if_neg (by simp), if_neg (by simp)]
    rw [hnsq] at hcap ⊢
    simp only [List.headD_cons]
    have hcap' : ∀ v ∈ normsSq tas tbs, 4 * v ≤ 9 * sqDist a b := by
      intro w hw
      have := hcap w (List.mem_cons_of_mem _ hw)
      simpa using this
    have hstepU : gmaLoopU (sqDist a b :: normsSq tas tbs)
        (sqDist a b) (sqDist a b) 0 0 =
        gmaLoopM (normsSq tas tbs) (sqDist a b) 1 0 := by
      simp only [gmaLoopU, lt_self_iff_false, if_false]
      exact gmaLoopU_eq_gmaLoopM (sqDist a b) (normsSq tas tbs)
        (sqDist a b) 1 0 hcap'
    have hstepM : gmaLoopM (sqDist a b :: normsSq tas tbs) 0 0 0 =
        gmaLoopM (normsSq tas tbs) (sqDist a b) 1 0 := by
      simp only [gmaLoopM]
      by_cases h0 : (0 : ℤ) < sqDist a b
      · rw [if_pos h0]
      · rw [if_neg h0]
        have : sqDist a b = 0 :=
          le_antisymm (not_lt.mp h0) (sqDist_nonneg a b)
        rw [this]
    rw [hstepU, hstepM]

/-- Witness for `get_max_approx_agree`: two equal norms, the break never
fires, both versions return index 0. -/
theorem get_max_approx_agree_witness :
    get_max_approx_utils [(0, 1), (0, 1)] [(0, 0), (0, 0)] =
      get_max_approx_m [(0, 1), (0, 1)] [(0, 0), (0, 0)] :=
  get_max_approx_agree [(0, 1), (0, 1)] [(0, 0), (0, 0)] rfl (by simp)
    (by decide)

lemma sample_points_length (p1 p2 : ℚ × ℚ) :
    (sample_points p1 p2).length = 100 := by
  with_unfolding_all rfl

lemma normsSq_length (rs ls : List (ℤ × ℤ)) :
    (normsSq rs ls).length = min rs.length ls.length := by
  simp [normsSq]

lemma normsSq_getD_nonneg (rs ls : List (ℤ × ℤ)) (j : ℕ) :
    0 ≤ (normsSq rs ls).getD j 0 := by
  induction rs generalizing ls j with
  | nil => simp [normsSq]
  | cons a ras ih =>
    cases ls with
    | nil => simp [normsSq]
    | cons b lbs =>
      cases j with
      | zero => simpa [normsSq] using sqDist_nonneg a b
      | succ j' =>
        have : normsSq (a :: ras) (b :: lbs) =
            sqDist a b :: normsSq ras lbs := rfl
        rw [this, List.getD_cons_succ]
        exact ih lbs j'

lemma getD_via_get? {α : Type} (l : List α) (n : ℕ) (d : α) :
    l.getD n d = (l.get? n).getD d := by
  induction l generalizing n with
  | nil => cases n <;> rfl
  | cons a t ih =>
    cases n with
    | zero => rfl
    | succ n' =>
      rw [List.getD_cons_succ]
      exact ih n'

lemma gmaLoopM_invariant :
    ∀ (l : List ℤ) (m : ℤ) (i best : ℕ),
      (gmaLoopM l m i best = best ∧ ∀ j < l.length, l.getD j 0 ≤ m) ∨
      (∃ j, j < l.length ∧ gmaLoopM l m i best = i + j ∧ m < l.getD j 0 ∧
        (∀ j2 < l.length, l.getD j2 0 ≤ l.getD j 0) ∧
        (∀ j2 < j, l.getD j2 0 < l.getD j 0)) := by
  intro l
  induction l with
  | nil =>
    intro m i best
    left
    exact ⟨rfl, by intro j hj; simp at hj⟩
  | cons v rest ih =>
    intro m i best
    by_cases hm : m < v
    · rcases ih v (i + 1) i with ⟨heq, hall⟩ | ⟨j, hj, heq, hgt, hmax, hstrict⟩
      · right
        refine ⟨0, by simp, ?_, by simpa using hm, ?_, ?_⟩
        · simp only [gmaLoopM, if_pos hm]
          rw [heq]
          omega
        · intro j2 hj2
          cases j2 with
          | zero => simp
          | succ j2' =>
            rw [List.getD_cons_succ, List.getD_cons_zero]
            exact hall j2' (by simpa using hj2)
        · intro j2 hj2
          omega
      · right
        refine ⟨j + 1, by simpa using hj, ?_, ?_, ?_, ?_⟩
        · simp only [gmaLoopM, if_pos hm]
          rw [heq]
          omega
        · rw [List.getD_cons_succ]
          exact lt_trans hm hgt
        · intro j2 hj2
          cases j2 with
          | zero =>
            rw [List.getD_cons_zero, List.getD_cons_succ]
            exact le_of_lt hgt
          | succ j2' =>
            rw [List.getD_cons_succ, List.getD_cons_succ]
            exact hmax j2' (by simpa using hj2)
        · intro j2 hj2
          cases j2 with
          | zero =>
            rw [List.getD_cons_zero, List.getD_cons_succ]
            exact hgt
          | succ j2' =>
            rw [List.getD_cons_succ, List.getD_cons_succ]
            exact hstrict j2' (by omega)
    · rcases ih m (i + 1) best with ⟨heq, hall⟩ | ⟨j, hj, heq, hgt, hmax, hstrict⟩
      · left
        constructor
        · simp only [gmaLoopM, if_neg hm]
          exact heq
        · intro j hj
          cases j with
          | zero => simpa using not_lt.mp hm
          | succ j' =>
            rw [List.getD_cons_succ]
            exact hall j' (by simpa using hj)
      · right
        refine ⟨j + 1, by simpa using hj, ?_, ?_, ?_, ?_⟩
        · simp only [gmaLoopM, if_neg hm]
          rw [heq]
          omega
        · rw [List.getD_cons_succ]
          exact hgt
        · intro j2 hj2
          cases j2 with
          | zero =>
            rw [List.getD_cons_zero, List.getD_cons_succ]
            exact le_of_lt (lt_of_le_of_lt (not_lt.mp hm) hgt)
          | succ j2' =>
            rw [List.getD_cons_succ, List.getD_cons_succ]
            exact hmax j2' (by simpa using hj2)
        · intro j2 hj2
          cases j2 with
          | zero =>
            rw [List.getD_cons_zero, List.getD_cons_succ]
            exact lt_of_le_of_lt (not_lt.mp hm) hgt
          | succ j2' =>
            rw [List.getD_cons_succ, List.getD_cons_succ]
            exact hstrict j2' (by omega)

/-- C4 amended: when every one of the 100 samples' two perpendicular rays
hits (both per-side hit lists have length 100, so `r_side[i]`/`l_side[i]`
are sample `i`'s own two hits), `YeadonModel._get_maximum_point` returns
the sample at the FIRST index of maximal local squared width — the
squared distance between the sample's two opposite hit pixels — with its
coordinates reversed into natural `(x, y)` order.  (The utils
`get_maximum_point` additionally stops its scan early at the 1.5-break;
see `extremum_point_counterexample`.) -/
theorem extremum_point_amended (E : Raster) (start end_ : ℚ × ℚ)
    (c s : ℚ) (fuel : ℕ) (rs ls : List (ℤ × ℤ))
    (hvec : ∃ r : ℚ, 0 < r ∧ end_.2 - start.2 = r * c ∧
      end_.1 - start.1 = r * s)
    (hr : get_maximum_range E (dirPlus c s)
      (sample_points (start.2, start.1) (end_.2, end_.1)) fuel = some rs)
    (hl : get_maximum_range E (dirMinus c s)
      (sample_points (start.2, start.1) (end_.2, end_.1)) fuel = some ls)
    (hrlen : rs.length = 100) (hllen : ls.length = 100) :
    ∃ i : ℕ, i < 100 ∧
      get_maximum_point_m E start end_ c s fuel =
        some (.ok
          ((((sample_points (start.2, start.1) (end_.2, end_.1)).getD i
              (0, 0)).2),
           (((sample_points (start.2, start.1) (end_.2, end_.1)).getD i
              (0, 0)).1))) ∧
      (∀ j < 100, (normsSq rs ls).getD j 0 ≤ (normsSq rs ls).getD i 0) ∧
      (∀ j < i, (normsSq rs ls).getD j 0 < (normsSq rs ls).getD i 0) := by
  have hnsqlen : (normsSq rs ls).length = 100 := by
    rw [normsSq_length, hrlen, hllen]
    exact min_self 100
  have hreslen :
      (sample_points (start.2, start.1) (end_.2, end_.1)).length = 100 :=
    sample_points_length _ _
  -- the value computed by the embedded function
  have happrox : get_max_approx_m rs ls =
      .ok (some (gmaLoopM (normsSq rs ls) 0 0 0)) := by
    unfold get_max_approx_m
    rw [if_neg (not_not_intro (by omega)), if_neg (by omega)]
  have hval : ∀ i : ℕ, i < 100 →
      get_maximum_point_m E start end_ c s fuel =
        some (select_point
          (sample_points (start.2, start.1) (end_.2, end_.1))
          (get_max_approx_m rs ls)) := by
    intro i hi
    unfold get_maximum_point_m
    simp only [Option.bind_eq_bind, get_points]
    rw [hr]
    simp only [Option.some_bind]
    rw [hl]
    simp only [Option.some_bind]
    rfl
  have hselect : ∀ i : ℕ, i < 100 →
      select_point (sample_points (start.2, start.1) (end_.2, end_.1))
        (.ok (some i)) =
        .ok
          ((((sample_points (start.2, start.1) (end_.2, end_.1)).getD i
              (0, 0)).2),
           (((sample_points (start.2, start.1) (end_.2, end_.1)).getD i
              (0, 0)).1)) := by
    intro i hi
    cases hq : (sample_points (start.2, start.1) (end_.2, end_.1)).get? i with
    | none =>
      rw [List.get?_eq_none] at hq
      omega
    | some q =>
      simp only [select_point]
      rw [hq, getD_via_get?, hq]
      rfl
  rcases gmaLoopM_invariant (normsSq rs ls) 0 0 0 with
    ⟨heq, hall⟩ | ⟨j, hj, heq, hgt, hmax, hstrict⟩
  · refine ⟨0, by norm_num, ?_, ?_, ?_⟩
    · rw [hval 0 (by norm_num), happrox, heq, hselect 0 (by norm_num)]
    · intro j hj
      exact le_trans (hall j (by omega)) (normsSq_getD_nonneg rs ls 0)
    · intro j hj
      omega
  · refine ⟨j, by omega, ?_, ?_, ?_⟩
    · have hj' : j < 100 := by omega
      rw [hval j hj', happrox, heq]
      simpa using hselect j hj'
    · intro j2 hj2
      exact hmax j2 (by omega)
    · exact hstrict


/-- Witness for `extremum_point_amended` on `rasterTaper`: all 200 rays
hit, and the im2meas variant returns the sample of maximal width. -/
theorem extremum_point_amended_witness :
    ∃ i : ℕ, i < 100 ∧
      get_maximum_point_m rasterTaper (0, 1) (1, 1) 0 1 150 =
        some (.ok
          ((((sample_points (((0 : ℚ), (1 : ℚ)).2, ((0 : ℚ), (1 : ℚ)).1)
              (((1 : ℚ), (1 : ℚ)).2, ((1 : ℚ), (1 : ℚ)).1)).getD i
              (0, 0)).2),
           (((sample_points (((0 : ℚ), (1 : ℚ)).2, ((0 : ℚ), (1 : ℚ)).1)
              (((1 : ℚ), (1 : ℚ)).2, ((1 : ℚ), (1 : ℚ)).1)).getD i
              (0, 0)).1))) ∧
      (∀ j < 100, (normsSq rsTaper lsTaper).getD j 0 ≤
        (normsSq rsTaper lsTaper).getD i 0) ∧
      (∀ j < i, (normsSq rsTaper lsTaper).getD j 0 <
        (normsSq rsTaper lsTaper).getD i 0) :=
  extremum_point_amended rasterTaper (0, 1) (1, 1) 0 1 150 rsTaper lsTaper
    ⟨1, by norm_num⟩ (by with_unfolding_all decide)
    (by with_unfolding_all decide) (by with_unfolding_all decide)
    (by with_unfolding_all decide)
